import Mathlib

/-!
Verification development for the kikuchipy dictionary-indexing core
(similarity metrics, chunked pattern matching, static dictionary indexing).

The Python modules `kikuchipy/indexing/similarity_metrics.py` and
`kikuchipy/indexing/pattern_matching.py` are not part of the source tree;
only their tests and their caller `_static_dictionary_indexing.py` are.
Definitions for those two modules are therefore modelled from the
specification (and, where the specification conflicts with the in-tree
tests, from the behaviour the tests pin down); each such definition says so
in its doc comment.  Everything taken from
`_static_dictionary_indexing.py` is translated directly from that file.

Scores are modelled over an arbitrary linear order (instantiated at ℚ and
at ℝ); floating-point rounding is abstracted to exact arithmetic, which is
the tolerance granted by the specification ("within floating-point
tolerance of the scoring function itself").
-/

namespace KP

/-- Match-result entry: a (score, template index) pair. -/
abbrev Entry (γ : Type) := γ × ℕ

/-- Strictly-better comparison on scores: with greater_is_better (gib) set,
a larger score is strictly better; otherwise a smaller score is. -/
def scoreLt {γ : Type} [LinearOrder γ] (gib : Bool) (x y : γ) : Prop :=
  match gib with
  | true => y < x
  | false => x < y

instance scoreLtDecidable {γ : Type} [LinearOrder γ] (gib : Bool) (x y : γ) :
    Decidable (scoreLt gib x y) := by
  unfold scoreLt; cases gib <;> infer_instance

theorem scoreLt_trans {γ : Type} [LinearOrder γ] (gib : Bool) {x y z : γ}
    (h1 : scoreLt gib x y) (h2 : scoreLt gib y z) : scoreLt gib x z := by
  cases gib
  · exact lt_trans h1 h2
  · exact lt_trans h2 h1

theorem scoreLt_asymm {γ : Type} [LinearOrder γ] (gib : Bool) {x y : γ}
    (h1 : scoreLt gib x y) : ¬ scoreLt gib y x := by
  cases gib <;> exact fun h2 => absurd (lt_trans h1 h2) (lt_irrefl _)

theorem scoreLt_irrefl {γ : Type} [LinearOrder γ] (gib : Bool) (x : γ) :
    ¬ scoreLt gib x x := by
  cases gib <;> exact lt_irrefl x

theorem scoreLt_trichotomy {γ : Type} [LinearOrder γ] (gib : Bool) (x y : γ) :
    scoreLt gib x y ∨ x = y ∨ scoreLt gib y x := by
  cases gib
  · exact lt_trichotomy x y
  · rcases lt_trichotomy x y with h | h | h
    · exact Or.inr (Or.inr h)
    · exact Or.inr (Or.inl h)
    · exact Or.inl h

theorem scoreLt_of_eq_left {γ : Type} [LinearOrder γ] (gib : Bool) {x y z : γ}
    (e : x = y) (h : scoreLt gib y z) : scoreLt gib x z := e ▸ h

/-- Ranking order on entries used by the pattern matcher: the better score
comes first (descending scores when the metric's greater_is_better flag is
set, ascending otherwise), with ties broken by ascending template index.
Modelled from the spec: ordering and tie-break rule of section 4.2. -/
def entryLe {γ : Type} [LinearOrder γ] (gib : Bool) (a b : Entry γ) : Prop :=
  scoreLt gib a.1 b.1 ∨ (a.1 = b.1 ∧ a.2 ≤ b.2)

instance entryLeDecidable {γ : Type} [LinearOrder γ] (gib : Bool) :
    DecidableRel (entryLe (γ := γ) gib) := fun a b => by
  unfold entryLe; infer_instance

theorem entryLe_total {γ : Type} [LinearOrder γ] (gib : Bool) (a b : Entry γ) :
    entryLe gib a b ∨ entryLe gib b a := by
  unfold entryLe
  rcases scoreLt_trichotomy gib a.1 b.1 with h | h | h
  · exact Or.inl (Or.inl h)
  · rcases Nat.le_total a.2 b.2 with h2 | h2
    · exact Or.inl (Or.inr ⟨h, h2⟩)
    · exact Or.inr (Or.inr ⟨h.symm, h2⟩)
  · exact Or.inr (Or.inl h)

theorem entryLe_trans {γ : Type} [LinearOrder γ] (gib : Bool) {a b c : Entry γ}
    (h1 : entryLe gib a b) (h2 : entryLe gib b c) : entryLe gib a c := by
  rcases h1 with h1 | ⟨e1, i1⟩ <;> rcases h2 with h2 | ⟨e2, i2⟩
  · exact Or.inl (scoreLt_trans gib h1 h2)
  · exact Or.inl (e2 ▸ h1)
  · exact Or.inl (scoreLt_of_eq_left gib e1 h2)
  · exact Or.inr ⟨e1.trans e2, i1.trans i2⟩

theorem entryLe_antisymm {γ : Type} [LinearOrder γ] (gib : Bool) {a b : Entry γ}
    (h1 : entryLe gib a b) (h2 : entryLe gib b a) : a = b := by
  rcases h1 with h1 | ⟨e1, i1⟩ <;> rcases h2 with h2 | ⟨e2, i2⟩
  · exact absurd h2 (scoreLt_asymm gib h1)
  · exact absurd (e2 ▸ h1) (scoreLt_irrefl gib a.1)
  · exact absurd (e1 ▸ h2) (scoreLt_irrefl gib b.1)
  · exact Prod.ext e1 (Nat.le_antisymm i1 i2)

instance {γ : Type} [LinearOrder γ] (gib : Bool) : IsTotal (Entry γ) (entryLe gib) :=
  ⟨entryLe_total gib⟩

instance {γ : Type} [LinearOrder γ] (gib : Bool) : IsTrans (Entry γ) (entryLe gib) :=
  ⟨fun _ _ _ => entryLe_trans gib⟩

instance {γ : Type} [LinearOrder γ] (gib : Bool) : IsAntisymm (Entry γ) (entryLe gib) :=
  ⟨fun _ _ => entryLe_antisymm gib⟩

/-- Best-n selection: rank all entries by the metric's ordering (ties by
ascending template index) and keep the first n.  Modelled from the spec:
"concatenate ..., re-rank by the same ordering and tie-break rule, and
truncate to keep_n" — re-ranking a set of entries is a sort. -/
def topN {γ : Type} [LinearOrder γ] (gib : Bool) (n : ℕ) (l : List (Entry γ)) :
    List (Entry γ) :=
  (l.insertionSort (entryLe gib)).take n

theorem insertionSort_congr_perm {γ : Type} [LinearOrder γ] (gib : Bool)
    {l₁ l₂ : List (Entry γ)} (h : l₁.Perm l₂) :
    l₁.insertionSort (entryLe gib) = l₂.insertionSort (entryLe gib) :=
  List.eq_of_perm_of_sorted
    ((List.perm_insertionSort _ _).trans (h.trans (List.perm_insertionSort _ _).symm))
    (List.sorted_insertionSort _ _) (List.sorted_insertionSort _ _)

theorem topN_congr_perm {γ : Type} [LinearOrder γ] (gib : Bool) (n : ℕ)
    {l₁ l₂ : List (Entry γ)} (h : l₁.Perm l₂) : topN gib n l₁ = topN gib n l₂ := by
  unfold topN
  rw [insertionSort_congr_perm gib h]

theorem length_topN {γ : Type} [LinearOrder γ] (gib : Bool) (n : ℕ)
    (l : List (Entry γ)) : (topN gib n l).length = min n l.length := by
  unfold topN
  rw [List.length_take, (List.perm_insertionSort (entryLe gib) l).length_eq]

theorem topN_min_length {γ : Type} [LinearOrder γ] (gib : Bool) (n : ℕ)
    (l : List (Entry γ)) : topN gib (min n l.length) l = topN gib n l := by
  unfold topN
  rcases Nat.le_total n l.length with h | h
  · rw [Nat.min_eq_left h]
  · rw [Nat.min_eq_right h]
    have hlen : (l.insertionSort (entryLe gib)).length = l.length :=
      (List.perm_insertionSort (entryLe gib) l).length_eq
    rw [List.take_of_length_le (le_of_eq hlen)]
    rw [List.take_of_length_le (by omega)]

theorem topN_cons_dominated {γ : Type} [LinearOrder γ] (gib : Bool) (n : ℕ)
    (d : Entry γ) (l : List (Entry γ))
    (h : n ≤ l.countP (fun x => decide (¬ entryLe gib d x))) :
    topN gib n (d :: l) = topN gib n l := by
  have hkey := List.insertionSort_cons_eq_take_drop (entryLe gib) d l
  set p : Entry γ → Bool := fun b => decide (¬ entryLe gib d b) with hp
  set S := l.insertionSort (entryLe gib) with hS
  have hsorted : List.Sorted (entryLe gib) S := List.sorted_insertionSort (entryLe gib) l
  have hdrop : ∀ x ∈ S.dropWhile p, entryLe gib d x := by
    intro x hx
    cases hQ : S.dropWhile p with
    | nil => rw [hQ] at hx; cases hx
    | cons q rest =>
      rw [hQ] at hx
      have hne : S.dropWhile p ≠ [] := by rw [hQ]; exact List.cons_ne_nil q rest
      have hqfalse : p ((S.dropWhile p).head hne) = false := List.head_dropWhile_not p S hne
      rw [show (S.dropWhile p).head hne = q by rw [List.head_eq_iff_head?_eq_some]; rw [hQ]; rfl]
        at hqfalse
      have hdq : entryLe gib d q := by
        simpa [hp, decide_eq_false_iff_not, not_not] using hqfalse
      have hsorted' : List.Sorted (entryLe gib) (q :: rest) := by
        rw [← hQ]; exact hsorted.sublist (List.dropWhile_sublist p)
      rcases List.mem_cons.mp hx with he | ht
      · exact he ▸ hdq
      · exact entryLe_trans gib hdq (List.rel_of_sorted_cons hsorted' x ht)
  have hlen : n ≤ (S.takeWhile p).length := by
    have h1 : l.countP p = S.countP p := ((List.perm_insertionSort (entryLe gib) l).countP_eq p).symm
    have h2 : S.countP p = (S.takeWhile p).countP p + (S.dropWhile p).countP p := by
      rw [← List.countP_append, List.takeWhile_append_dropWhile]
    have h3 : (S.dropWhile p).countP p = 0 := by
      rw [List.countP_eq_zero]
      intro a ha
      simp [hp, hdrop a ha]
    have h4 : (S.takeWhile p).countP p = (S.takeWhile p).length := by
      rw [List.countP_eq_length]
      exact fun a ha => List.mem_takeWhile_imp ha
    omega
  unfold topN
  rw [← hS]
  rw [hkey, List.take_append_of_le_length hlen]
  conv_rhs => rw [← List.takeWhile_append_dropWhile (p := p) (l := S)]
  rw [List.take_append_of_le_length hlen]

theorem topN_append_dominated {γ : Type} [LinearOrder γ] (gib : Bool) (n : ℕ)
    (D l : List (Entry γ))
    (h : ∀ d ∈ D, n ≤ l.countP (fun x => decide (¬ entryLe gib d x))) :
    topN gib n (D ++ l) = topN gib n l := by
  induction D with
  | nil => rfl
  | cons d D ih =>
    have hcount : n ≤ (D ++ l).countP (fun x => decide (¬ entryLe gib d x)) := by
      rw [List.countP_append]
      have := h d (List.mem_cons_self d D)
      omega
    have h1 : topN gib n (d :: (D ++ l)) = topN gib n (D ++ l) :=
      topN_cons_dominated gib n d _ hcount
    have h2 : topN gib n (D ++ l) = topN gib n l :=
      ih (fun d' hd' => h d' (List.mem_cons_of_mem d hd'))
    calc topN gib n ((d :: D) ++ l) = topN gib n (d :: (D ++ l)) := by rw [List.cons_append]
    _ = topN gib n (D ++ l) := h1
    _ = topN gib n l := h2

theorem topN_topN_append {γ : Type} [LinearOrder γ] (gib : Bool) (n : ℕ)
    (X Y : List (Entry γ)) (hX : X.Nodup) :
    topN gib n (topN gib n X ++ Y) = topN gib n (X ++ Y) := by
  set S := X.insertionSort (entryLe gib) with hS
  have hsorted : List.Sorted (entryLe gib) S := List.sorted_insertionSort (entryLe gib) X
  have hndS : S.Nodup := ((List.perm_insertionSort (entryLe gib) X).nodup_iff).mpr hX
  have h1 : (X ++ Y).Perm ((S.take n ++ S.drop n) ++ Y) := by
    rw [List.take_append_drop]
    exact ((List.perm_insertionSort (entryLe gib) X).symm).append_right Y
  have hswap : ((S.take n ++ S.drop n) ++ Y).Perm ((S.drop n ++ S.take n) ++ Y) :=
    List.perm_append_comm.append_right Y
  have hperm : (X ++ Y).Perm (S.drop n ++ (S.take n ++ Y)) := by
    rw [← List.append_assoc]
    exact h1.trans hswap
  have hdom : ∀ d ∈ S.drop n,
      n ≤ (S.take n ++ Y).countP (fun x => decide (¬ entryLe gib d x)) := by
    intro d hd
    have hlt : n < S.length := by
      by_contra hle
      push_neg at hle
      rw [List.drop_eq_nil_of_le hle] at hd
      cases hd
    have hsplit : List.Pairwise (entryLe gib) (S.take n ++ S.drop n) := by
      rw [List.take_append_drop]; exact hsorted
    have hnodup2 : (S.take n ++ S.drop n).Nodup := by
      rw [List.take_append_drop]; exact hndS
    have htake_all : ∀ x ∈ S.take n, ¬ entryLe gib d x := by
      intro x hxt
      have hxd : entryLe gib x d := (List.pairwise_append.mp hsplit).2.2 x hxt d hd
      have hxne : x ≠ d := by
        rcases List.nodup_append.mp hnodup2 with ⟨-, -, hdisj⟩
        intro he
        exact hdisj (he ▸ hxt) hd
      intro hdx
      exact hxne (entryLe_antisymm gib hxd hdx)
    have hcnt : (S.take n).countP (fun x => decide (¬ entryLe gib d x))
        = (S.take n).length := by
      rw [List.countP_eq_length]
      intro a ha
      simpa using htake_all a ha
    have hlen_take : (S.take n).length = n := by rw [List.length_take]; omega
    rw [List.countP_append]
    omega
  have hfirst : topN gib n (topN gib n X ++ Y) = topN gib n (S.take n ++ Y) := rfl
  rw [hfirst, ← topN_append_dominated gib n (S.drop n) (S.take n ++ Y) hdom]
  exact (topN_congr_perm gib n hperm).symm

theorem topN_append_topN {γ : Type} [LinearOrder γ] (gib : Bool) (n : ℕ)
    (X Y : List (Entry γ)) (hY : Y.Nodup) :
    topN gib n (X ++ topN gib n Y) = topN gib n (X ++ Y) := by
  calc topN gib n (X ++ topN gib n Y)
      = topN gib n (topN gib n Y ++ X) := topN_congr_perm gib n List.perm_append_comm
  _ = topN gib n (Y ++ X) := topN_topN_append gib n Y X hY
  _ = topN gib n (X ++ Y) := topN_congr_perm gib n List.perm_append_comm

/-- Cross-block merge of the pattern matcher, per navigation row: the
running best-keep_n list is concatenated with the incoming block's local
best list, re-ranked and truncated.  Applied over any block decomposition
whose concatenation carries pairwise distinct template indices, the merge
computes the global best keep_n. -/
theorem foldl_topN_merge {γ : Type} [LinearOrder γ] (gib : Bool) (kn : ℕ)
    (bs : List (List (Entry γ))) (acc : List (Entry γ))
    (h : ((acc ++ bs.flatten).map Prod.snd).Nodup) :
    List.foldl (fun a b => topN gib kn (a ++ topN gib kn b)) (topN gib kn acc) bs
      = topN gib kn (acc ++ bs.flatten) := by
  induction bs generalizing acc with
  | nil => simp
  | cons b rest ih =>
    have hL : ((acc ++ b) ++ rest.flatten).map Prod.snd |>.Nodup := by
      rw [List.append_assoc]
      simpa using h
    have hacc : acc.Nodup := by
      refine List.Nodup.of_map Prod.snd ?_
      refine List.Nodup.sublist ?_ hL
      exact List.Sublist.map Prod.snd
        ((List.sublist_append_left acc b).trans (List.sublist_append_left (acc ++ b) rest.flatten))
    have hb : b.Nodup := by
      refine List.Nodup.of_map Prod.snd ?_
      refine List.Nodup.sublist ?_ hL
      refine List.Sublist.map Prod.snd ?_
      exact ((List.sublist_append_right acc b).trans (List.sublist_append_left (acc ++ b) rest.flatten))
    have hstep : topN gib kn (topN gib kn acc ++ topN gib kn b) = topN gib kn (acc ++ b) := by
      rw [topN_topN_append gib kn acc (topN gib kn b) hacc]
      exact topN_append_topN gib kn acc b hb
    rw [List.foldl_cons, hstep, ih (acc ++ b) hL]
    rw [List.flatten_cons, ← List.append_assoc]

/-- Contiguous, roughly equal partition of T templates into nSlices blocks,
given as (start, length) pairs, the last block absorbing any remainder.
Modelled from the spec: "partition the T templates into n_slices contiguous,
roughly equal blocks (last block absorbs any remainder)". -/
def slicePartition (T nSlices : ℕ) : List (ℕ × ℕ) :=
  (List.range (nSlices - 1)).map (fun j => (j * (T / nSlices), T / nSlices))
    ++ [((nSlices - 1) * (T / nSlices), T - (nSlices - 1) * (T / nSlices))]

/-- Entries of one contiguous block of templates, carrying global template
indices.  Within a contiguous block, ascending in-block index equals
ascending global index, so local tie-breaking followed by translation by
the block's starting offset is tie-breaking on the global index. -/
def blockEntries {γ : Type} (scores : ℕ → γ) (b : ℕ × ℕ) : List (Entry γ) :=
  (List.range' b.1 b.2).map (fun i => (scores i, i))

/-- All (score, template index) entries of a dictionary of T templates. -/
def allEntries {γ : Type} (scores : ℕ → γ) (T : ℕ) : List (Entry γ) :=
  (List.range T).map (fun i => (scores i, i))

/-- Chunked top-keep_n search for one navigation row.  Modelled from the
spec, section 4.2: per block, the locally best min(keep_n, block size)
entries are selected; the running best list is merged with each block's
local best by concatenation, re-ranking and truncation to keep_n. -/
def patternMatchRow {γ : Type} [LinearOrder γ] (gib : Bool) (keepn nSlices : ℕ)
    (scores : ℕ → γ) (T : ℕ) : List (Entry γ) :=
  List.foldl
    (fun acc b => topN gib keepn (acc ++ topN gib (min keepn b.2) (blockEntries scores b)))
    [] (slicePartition T nSlices)

theorem range_blocks_flatten (q : ℕ) (m : ℕ) :
    ((List.range m).map (fun j => List.range' (j * q) q)).flatten
      = List.range' 0 (m * q) := by
  induction m with
  | zero => simp
  | succ m ih =>
    rw [List.range_succ, List.map_append, List.flatten_append, ih]
    simp only [List.map_cons, List.map_nil, List.flatten_cons, List.flatten_nil,
      List.append_nil]
    have h := List.range'_append_1 0 (m * q) q
    simp only [Nat.zero_add] at h
    rw [h]
    congr 1
    rw [Nat.succ_mul]
    omega

theorem slicePartition_flatten (T k : ℕ) :
    ((slicePartition T k).map (fun b => List.range' b.1 b.2)).flatten
      = List.range T := by
  have hle : (k - 1) * (T / k) ≤ T := by
    have h1 : (k - 1) * (T / k) ≤ k * (T / k) :=
      Nat.mul_le_mul_right _ (Nat.sub_le k 1)
    have h2 : k * (T / k) ≤ T := by
      rw [Nat.mul_comm]
      exact Nat.div_mul_le_self T k
    omega
  unfold slicePartition
  rw [List.map_append, List.flatten_append, List.map_map]
  rw [show ((fun b : ℕ × ℕ => List.range' b.1 b.2) ∘ fun j => (j * (T / k), T / k))
      = (fun j => List.range' (j * (T / k)) (T / k)) from rfl]
  rw [range_blocks_flatten]
  simp only [List.map_cons, List.map_nil, List.flatten_cons, List.flatten_nil,
    List.append_nil]
  have h := List.range'_append_1 0 ((k - 1) * (T / k)) (T - (k - 1) * (T / k))
  simp only [Nat.zero_add] at h
  rw [h, List.range_eq_range']
  congr 1
  omega

theorem slicePartition_entries_flatten {γ : Type} (scores : ℕ → γ) (T k : ℕ) :
    ((slicePartition T k).map (blockEntries scores)).flatten = allEntries scores T := by
  have h1 : (slicePartition T k).map (blockEntries scores)
      = ((slicePartition T k).map (fun b => List.range' b.1 b.2)).map
          (List.map (fun i => (scores i, i))) := by
    rw [List.map_map]
    rfl
  rw [h1, ← List.map_flatten, slicePartition_flatten]
  rfl

theorem allEntries_snd {γ : Type} (scores : ℕ → γ) (T : ℕ) :
    (allEntries scores T).map Prod.snd = List.range T := by
  unfold allEntries
  rw [List.map_map]
  rw [show (Prod.snd ∘ fun i : ℕ => (scores i, i)) = fun i : ℕ => i from rfl]
  simp

/-- The chunked search of one navigation row equals the unchunked global
best-keep_n selection, for every number of slices. -/
theorem patternMatchRow_eq_topN {γ : Type} [LinearOrder γ] (gib : Bool)
    (keepn nSlices : ℕ) (scores : ℕ → γ) (T : ℕ) :
    patternMatchRow gib keepn nSlices scores T = topN gib keepn (allEntries scores T) := by
  unfold patternMatchRow
  have hfun : (fun acc b =>
        topN gib keepn (acc ++ topN gib (min keepn b.2) (blockEntries scores b)))
      = fun acc (b : ℕ × ℕ) =>
        topN gib keepn (acc ++ topN gib keepn (blockEntries scores b)) := by
    funext acc b
    have hlen : (blockEntries scores b).length = b.2 := by
      simp [blockEntries]
    rw [show min keepn b.2 = min keepn (blockEntries scores b).length by rw [hlen]]
    rw [topN_min_length gib keepn _]
  rw [hfun]
  have hnodup : ((([] : List (Entry γ))
      ++ ((slicePartition T nSlices).map (blockEntries scores)).flatten).map
        Prod.snd).Nodup := by
    rw [List.nil_append, slicePartition_entries_flatten, allEntries_snd]
    exact List.nodup_range T
  have hmerge := foldl_topN_merge gib keepn
    ((slicePartition T nSlices).map (blockEntries scores)) [] hnodup
  rw [List.nil_append, List.foldl_map, slicePartition_entries_flatten] at hmerge
  have hinit : topN gib keepn ([] : List (Entry γ)) = [] := by
    simp [topN]
  rw [hinit] at hmerge
  exact hmerge

/-- Declared cardinality relationship a metric supports.  Modelled from the
spec: MetricScope with members many_to_many, one_to_many, one_to_one. -/
inductive MetricScope
  | manyToMany
  | oneToMany
  | oneToOne
deriving DecidableEq

/-- Modelled from the spec: similarity_metrics.py is absent from src/.  A
similarity metric's self-description: scope, greater_is_better ordering
convention, flat input convention, and whether strictly lower scopes are
accepted (make_compatible_to_lower_scopes); the raw scoring function is
modelled separately as a score table. -/
structure SimilarityMetric where
  scope : MetricScope
  greater_is_better : Bool
  flat : Bool
  reducible : Bool
deriving DecidableEq

/-- Full array dimensionalities (pattern ndim, template ndim) declared by
each scope.  Modelled from the spec together with the in-tree tests: the
tests require MANY_TO_MANY to accept the pair (4, 3) — a 2-D navigation
grid plus two signal axes against a stack of templates (test_flat_metric)
— and to reject (5, 3) (test_not_supported_inputs), while the spec's prose
counts MANY_TO_MANY as one extra pattern axis; the tests win. -/
def scopeNdim : MetricScope → ℕ × ℕ
  | .manyToMany => (4, 3)
  | .oneToMany => (2, 3)
  | .oneToOne => (2, 2)

/-- Strictly lower scopes reachable by scope reduction. -/
def lowerScopes : MetricScope → List MetricScope
  | .manyToMany => [.oneToMany, .oneToOne]
  | .oneToMany => [.oneToOne]
  | .oneToOne => []

/-- Scope declaring a given (pattern ndim, template ndim) pair, if any. -/
def ndimScope (pn tn : ℕ) : Option MetricScope :=
  if pn = 4 ∧ tn = 3 then some .manyToMany
  else if pn = 2 ∧ tn = 3 then some .oneToMany
  else if pn = 2 ∧ tn = 2 then some .oneToOne
  else none

/-- Compatibility check (the source's _is_compatible): true when the
dimensionality pair is the metric's own scope's pair, or, for a metric
allowing scope reduction, a strictly lower scope's pair; any other pair
gives false rather than an exception.  Modelled from the spec and the
in-tree tests. -/
def isCompatible (m : SimilarityMetric) (pn tn : ℕ) : Bool :=
  match ndimScope pn tn with
  | none => false
  | some s => s == m.scope || (m.reducible && (lowerScopes m.scope).contains s)

/-- Built-in normalized cross-correlation metric descriptor.  Modelled from
the spec, section 4.1, and the in-tree tests (many-to-many scope, greater
is better, image-shaped inputs, compatible to lower scopes per
test_make_compatible_to_lower_scopes). -/
def znccMetric : SimilarityMetric :=
  { scope := .manyToMany, greater_is_better := true, flat := false, reducible := true }

/-- Built-in normalized dot product metric descriptor.  Modelled from the
spec, section 4.1; same shape metadata as the zncc metric. -/
def ndpMetric : SimilarityMetric :=
  { scope := .manyToMany, greater_is_better := true, flat := false, reducible := true }

/-- Fixed metric registry.  Modelled from the spec ("a fixed mapping
{zncc, ndp} built once at process start"); the in-tree tests index
SIMILARITY_METRICS by exactly these two names. -/
def SIMILARITY_METRICS : List (String × SimilarityMetric) :=
  [("zncc", znccMetric), ("ndp", ndpMetric)]

/-- Failure modes of the pattern matcher: shapeError models the OSError
raised on signal-shape or scope mismatch, unknownMetric the ValueError
carrying the recognized metric names. -/
inductive MatchError
  | shapeError
  | unknownMetric (recognized : List String)
deriving DecidableEq

/-- Metric resolution inside the pattern matcher: a registry name or a
metric instance; an unrecognized name raises a ValueError listing the
recognized names.  Modelled from the spec, section 4.1 (Registry). -/
def resolveMetric (metric : String ⊕ SimilarityMetric) :
    Except MatchError SimilarityMetric :=
  match metric with
  | .inl name =>
    match SIMILARITY_METRICS.find? (fun p => p.1 == name) with
    | some p => .ok p.2
    | none => .error (.unknownMetric (SIMILARITY_METRICS.map Prod.fst))
  | .inr m => .ok m

/-- Last two axes of an array shape — the signal (image) axes. -/
def lastTwo (shape : List ℕ) : List ℕ := shape.drop (shape.length - 2)

/-- Leading axes of an array shape — navigation axes for a pattern array,
the template-count axis for a template array. -/
def leadingAxes (shape : List ℕ) : List ℕ := shape.take (shape.length - 2)

/-- Product of a list of axis lengths. -/
def prodList (l : List ℕ) : ℕ := l.foldr (· * ·) 1

/-- Chunked pattern matcher pattern_match.  Modelled from the spec,
section 4.2 (pattern_matching.py is absent from src/): resolve the metric,
validate that the image signal shape equals the template signal shape and
that the combined dimensionality passes the metric's compatibility check
(each failure is a shape error raised before any score computation), clamp
keep_n to the number of templates (source default keep_n = 50, n_slices =
1), then run the chunked top-keep_n search once per flattened navigation
position.  Scoring is abstracted by a table giving the metric's score for
each (navigation row, template) pair. -/
def pattern_match {γ : Type} [LinearOrder γ] (pshape tshape : List ℕ)
    (scores : ℕ → ℕ → γ) (metric : String ⊕ SimilarityMetric)
    (keep_n nSlices : ℕ) : Except MatchError (List (List (Entry γ))) :=
  match resolveMetric metric with
  | .error e => .error e
  | .ok m =>
    if lastTwo pshape ≠ lastTwo tshape then .error .shapeError
    else if isCompatible m pshape.length tshape.length then
      .ok ((List.range (prodList (leadingAxes pshape))).map fun r =>
        patternMatchRow m.greater_is_better (min keep_n (prodList (leadingAxes tshape)))
          nSlices (scores r) (prodList (leadingAxes tshape)))
    else .error .shapeError

/-- Dictionary as the indexer holds it: its navigation size (equal to
d.xmap.size by the Dictionary invariant len(orientations) ==
navigation_size) and the chosen metric's score for each
(experimental navigation row, template) pair. -/
structure DictionaryM (γ : Type) where
  size : ℕ
  rowScores : ℕ → ℕ → γ

/-- Fixed templates-per-slice safety threshold, good_number in
StaticDictionaryIndexing.__call__. -/
def goodNumber : ℕ := 13500

/-- Guard condition of StaticDictionaryIndexing.__call__: the confirmation
prompt is issued iff n_simulations // n_slices > good_number (Python floor
division on nonnegative ints is ℕ division). -/
def needsConfirmation (nSimulations nSlices : ℕ) : Bool :=
  goodNumber < nSimulations / nSlices

/-- n_simulations: the largest dictionary navigation size. -/
def maxNavSize {γ : Type} (dicts : List (DictionaryM γ)) : ℕ :=
  (dicts.map DictionaryM.size).foldr max 0

/-- keep_n resolution from the source: keep_n = min([keep_n] + [d.xmap.size
for d in self.dictionaries]). -/
def resolvedKeepN {γ : Type} (keep_n : ℕ) (dicts : List (DictionaryM γ)) : ℕ :=
  (dicts.map DictionaryM.size).foldr min keep_n

/-- Metric lookup in StaticDictionaryIndexing.__call__:
_SIMILARITY_METRICS.get(metric, metric) yields the registry entry when the
name is a key and otherwise leaves the argument unchanged. -/
def indexerResolveMetric (metric : String ⊕ SimilarityMetric) :
    String ⊕ SimilarityMetric :=
  match metric with
  | .inl name =>
    match SIMILARITY_METRICS.find? (fun p => p.1 == name) with
    | some p => .inr p.2
    | none => .inl name
  | .inr m => .inr m

/-- Default value of the metric parameter of
StaticDictionaryIndexing.__call__ in the source: the string "ncc". -/
def indexerDefaultMetric : String ⊕ SimilarityMetric := .inl "ncc"

/-- StaticDictionaryIndexing.__call__, translated from
src/kikuchipy/indexing/_static_dictionary_indexing.py, with the
interactive input() answer supplied as an oracle argument (consulted only
when the guard triggers).  Returns none when the large-computation
confirmation is refused; otherwise the metric is resolved through the
registry (a string that is no registry key flows into the pattern matcher
and raises its unknown-metric ValueError) and each dictionary is matched,
giving one ranked (score, simulation index) list per navigation position
per dictionary. -/
def staticDictionaryCall {γ : Type} [LinearOrder γ] (dicts : List (DictionaryM γ))
    (navSize : ℕ) (metric : String ⊕ SimilarityMetric) (keep_n nSlices : ℕ)
    (answer : String) :
    Option (Except MatchError (List (List (List (Entry γ))))) :=
  if needsConfirmation (maxNavSize dicts) nSlices ∧ answer ≠ "y" then none
  else
    match indexerResolveMetric metric with
    | .inl _ => some (.error (.unknownMetric (SIMILARITY_METRICS.map Prod.fst)))
    | .inr m =>
      some (.ok (dicts.map fun d =>
        (List.range navSize).map fun r =>
          patternMatchRow m.greater_is_better (resolvedKeepN keep_n dicts)
            nSlices (d.rowScores r) d.size))

/-- Result of _get_spatial_arrays: nothing for 0 navigation dimensions,
one coordinate array for 1, an (x, y) pair for 2. -/
inductive SpatialArrays
  | zeroD
  | oneD (x : List ℚ)
  | twoD (x y : List ℚ)
deriving DecidableEq

/-- np.arange over ℚ with positive step: start, start + step, ... while
strictly below stop; the element count is ceil((stop - start) / step). -/
def arangeQ (start stop step : ℚ) : List ℚ :=
  (List.range (Int.toNat ⌈(stop - start) / step⌉)).map fun i => start + i * step

/-- np.tile of a 1-D array: k concatenated copies. -/
def tileQ (l : List ℚ) (k : ℕ) : List ℚ := (List.replicate k l).flatten

/-- Translated from _get_spatial_arrays in
src/kikuchipy/indexing/_static_dictionary_indexing.py.  For two navigation
dimensions the source computes
x = np.tile(np.arange(x0, x1 + dx, dx), shape[1]) and
y = np.tile(np.arange(y0, y1 + dy, dy), shape[0]).
Shapes and extents that the source's tuple unpacking would reject at run
time fall through to the zeroD constructor. -/
def getSpatialArrays (shape : List ℕ) (extent : List ℚ) (stepSizes : List ℚ) :
    SpatialArrays :=
  match shape, extent, stepSizes with
  | [], _, _ => .zeroD
  | [_], x0 :: x1 :: _, dx :: _ => .oneD (arangeQ x0 (x1 + dx) dx)
  | s0 :: s1 :: _, x0 :: x1 :: y0 :: y1 :: _, dx :: dy :: _ =>
      .twoD (tileQ (arangeQ x0 (x1 + dx) dx) s1) (tileQ (arangeQ y0 (y1 + dy) dy) s0)
  | _, _, _ => .zeroD

/-- Mean of a flattened rational image. -/
def meanQ (l : List ℚ) : ℚ := l.sum / l.length

/-- Mean-centred values of a flattened image. -/
def centered (l : List ℚ) : List ℚ := l.map fun v => v - meanQ l

/-- Inner product of two equally long flattened images. -/
def innerQ (a b : List ℚ) : ℚ := (List.zipWith (· * ·) a b).sum

/-- Normalized cross-correlation score of two flattened images.  Modelled
from the spec, section 4.1: subtract each vector's mean, then the inner
product normalized by the product of the two centred vectors' L2 norms. -/
noncomputable def znccScore (p t : List ℚ) : ℝ :=
  (innerQ (centered p) (centered t) : ℝ)
    / (Real.sqrt (innerQ (centered p) (centered p))
        * Real.sqrt (innerQ (centered t) (centered t)))

theorem patternMatchRow_length {γ : Type} [LinearOrder γ] (gib : Bool)
    (kn ns : ℕ) (s : ℕ → γ) (T : ℕ) :
    (patternMatchRow gib kn ns s T).length = min kn T := by
  rw [patternMatchRow_eq_topN, length_topN]
  simp [allEntries]

theorem head?_topN {γ : Type} [LinearOrder γ] (gib : Bool) {n : ℕ} (hn : 1 ≤ n)
    (l : List (Entry γ)) :
    (topN gib n l).head? = (l.insertionSort (entryLe gib)).head? := by
  unfold topN
  cases h : l.insertionSort (entryLe gib) with
  | nil => simp
  | cons a t =>
    cases n with
    | zero => omega
    | succ n => simp

theorem head?_insertionSort_dominant {γ : Type} [LinearOrder γ] (gib : Bool)
    (l : List (Entry γ)) (x : Entry γ) (hx : x ∈ l)
    (hdom : ∀ y ∈ l, y ≠ x → entryLe gib x y ∧ ¬ entryLe gib y x) :
    (l.insertionSort (entryLe gib)).head? = some x := by
  have hsorted := List.sorted_insertionSort (entryLe gib) l
  have hmem : x ∈ l.insertionSort (entryLe gib) := by
    rw [List.mem_insertionSort]
    exact hx
  cases hS : l.insertionSort (entryLe gib) with
  | nil => rw [hS] at hmem; cases hmem
  | cons a t =>
    rw [hS] at hmem hsorted
    rcases List.mem_cons.mp hmem with he | ht
    · rw [List.head?_cons, he]
    · by_cases hax : a = x
      · rw [List.head?_cons, hax]
      · have ha_l : a ∈ l := by
          have : a ∈ l.insertionSort (entryLe gib) := by
            rw [hS]; exact List.mem_cons_self a t
          rwa [List.mem_insertionSort] at this
        have hltx : entryLe gib a x := List.rel_of_sorted_cons hsorted x ht
        exact absurd hltx (hdom a ha_l hax).2

theorem resolvedKeepN_le_keepn {γ : Type} (keep_n : ℕ)
    (dicts : List (DictionaryM γ)) : resolvedKeepN keep_n dicts ≤ keep_n := by
  unfold resolvedKeepN
  induction dicts with
  | nil => simp
  | cons d ds ih =>
    simp only [List.map_cons, List.foldr_cons]
    exact le_trans (Nat.min_le_right _ _) ih

theorem resolvedKeepN_le_size {γ : Type} (keep_n : ℕ)
    (dicts : List (DictionaryM γ)) :
    ∀ d ∈ dicts, resolvedKeepN keep_n dicts ≤ d.size := by
  unfold resolvedKeepN
  induction dicts with
  | nil => intro d hd; cases hd
  | cons d0 ds ih =>
    intro d hd
    simp only [List.map_cons, List.foldr_cons]
    rcases List.mem_cons.mp hd with he | ht
    · rw [he]; exact Nat.min_le_left _ _
    · exact le_trans (Nat.min_le_right _ _) (ih d ht)

theorem resolvedKeepN_mem {γ : Type} (keep_n : ℕ)
    (dicts : List (DictionaryM γ)) :
    resolvedKeepN keep_n dicts ∈ keep_n :: dicts.map DictionaryM.size := by
  unfold resolvedKeepN
  induction dicts with
  | nil => simp
  | cons d ds ih =>
    simp only [List.map_cons, List.foldr_cons]
    rcases Nat.le_total d.size ((ds.map DictionaryM.size).foldr min keep_n) with h | h
    · rw [Nat.min_eq_left h]
      simp
    · rw [Nat.min_eq_right h]
      rcases List.mem_cons.mp ih with he | ht
      · rw [he]; simp
      · simp only [List.mem_cons]
        right; right
        exact ht

theorem znccScore_self (p : List ℚ)
    (hA : 0 < innerQ (centered p) (centered p)) : znccScore p p = 1 := by
  unfold znccScore
  have hA' : (0 : ℝ) < ((innerQ (centered p) (centered p) : ℚ) : ℝ) := by
    exact_mod_cast hA
  rw [Real.mul_self_sqrt (le_of_lt hA')]
  exact div_self (ne_of_gt hA')

theorem znccScore_lt_one (p t : List ℚ)
    (hA : 0 < innerQ (centered p) (centered p))
    (hB : 0 < innerQ (centered t) (centered t))
    (hcs : innerQ (centered p) (centered t) ^ 2
      < innerQ (centered p) (centered p) * innerQ (centered t) (centered t)) :
    znccScore p t < 1 := by
  unfold znccScore
  have hA' : (0 : ℝ) < ((innerQ (centered p) (centered p) : ℚ) : ℝ) := by
    exact_mod_cast hA
  have hB' : (0 : ℝ) < ((innerQ (centered t) (centered t) : ℚ) : ℝ) := by
    exact_mod_cast hB
  have hden : 0 < Real.sqrt (innerQ (centered p) (centered p))
      * Real.sqrt (innerQ (centered t) (centered t)) :=
    mul_pos (Real.sqrt_pos.mpr hA') (Real.sqrt_pos.mpr hB')
  rw [div_lt_one hden, ← Real.sqrt_mul (le_of_lt hA')]
  apply Real.lt_sqrt_of_sq_lt
  have : (((innerQ (centered p) (centered t)) ^ 2 : ℚ) : ℝ)
      < ((innerQ (centered p) (centered p) * innerQ (centered t) (centered t) : ℚ) : ℝ) := by
    exact_mod_cast hcs
  push_cast at this ⊢
  exact this

/-- C1: slice invariance of the pattern matcher.  For every image batch and
template dictionary (given by their shapes and the metric's score table),
every metric, every keep_n and every number of slices k ≥ 1, pattern
matching with n_slices = k returns exactly the same per-position ranked
(score, simulation index) lists — hence identical simulation_indices and
scores arrays — as pattern matching with n_slices = 1. -/
theorem c1_slice_invariance {γ : Type} [LinearOrder γ] (pshape tshape : List ℕ)
    (scores : ℕ → ℕ → γ) (metric : String ⊕ SimilarityMetric) (keep_n k : ℕ)
    (hk : 1 ≤ k) :
    pattern_match pshape tshape scores metric keep_n k
      = pattern_match pshape tshape scores metric keep_n 1 := by
  clear hk
  unfold pattern_match
  cases resolveMetric metric with
  | error e => rfl
  | ok m => simp only [patternMatchRow_eq_topN]

/-- Witness for C1 at the concrete scenario of the matching test: 4
flattened navigation positions, 5 templates, keep_n 2, two slices against
one. -/
theorem c1_slice_invariance_witness :
    1 ≤ 2
      ∧ pattern_match [2, 2, 2, 2] [5, 2, 2]
            (fun r j => ((r * 10 + j : ℕ) : ℚ)) (Sum.inl "zncc") 2 2
        = pattern_match [2, 2, 2, 2] [5, 2, 2]
            (fun r j => ((r * 10 + j : ℕ) : ℚ)) (Sum.inl "zncc") 2 1 :=
  ⟨by omega,
    c1_slice_invariance [2, 2, 2, 2] [5, 2, 2]
      (fun r j => ((r * 10 + j : ℕ) : ℚ)) (Sum.inl "zncc") 2 2 (by omega)⟩

/-- C3: the large-computation guard of StaticDictionaryIndexing.__call__.
Confirmation is consulted iff n_simulations // n_slices exceeds the fixed
threshold good_number = 13500 (below the threshold the result is the same
complete value for every possible answer and is never the abort value);
when the guard triggers and confirmation is refused, the whole indexing
call aborts with none — no result maps. -/
theorem c3_large_computation_guard {γ : Type} [LinearOrder γ]
    (dicts : List (DictionaryM γ)) (navSize : ℕ)
    (metric : String ⊕ SimilarityMetric) (keep_n nSlices : ℕ) :
    (needsConfirmation (maxNavSize dicts) nSlices = true
        ↔ goodNumber < maxNavSize dicts / nSlices)
      ∧ (∀ answer, needsConfirmation (maxNavSize dicts) nSlices = true →
          answer ≠ "y" →
          staticDictionaryCall dicts navSize metric keep_n nSlices answer = none)
      ∧ (∀ a1 a2, needsConfirmation (maxNavSize dicts) nSlices = false →
          staticDictionaryCall dicts navSize metric keep_n nSlices a1
              = staticDictionaryCall dicts navSize metric keep_n nSlices a2
            ∧ staticDictionaryCall dicts navSize metric keep_n nSlices a1 ≠ none) := by
  refine ⟨?_, ?_, ?_⟩
  · simp [needsConfirmation]
  · intro answer h1 h2
    unfold staticDictionaryCall
    rw [if_pos ⟨h1, h2⟩]
  · intro a1 a2 h
    unfold staticDictionaryCall
    rw [if_neg (fun hc => by rw [h] at hc; cases hc.1), if_neg (fun hc => by rw [h] at hc; cases hc.1)]
    cases indexerResolveMetric metric <;> simp

/-- Witness for C3: one dictionary of 27002 simulations with two slices
(27002 // 2 = 13501 > 13500) and the refusing answer "n" aborts with
none. -/
theorem c3_large_computation_guard_witness :
    needsConfirmation
        (maxNavSize (γ := ℚ) [⟨27002, fun _ _ => 0⟩]) 2 = true
      ∧ ("n" : String) ≠ "y"
      ∧ staticDictionaryCall (γ := ℚ) [⟨27002, fun _ _ => 0⟩] 1
          (Sum.inr znccMetric) 50 2 "n" = none :=
  ⟨by decide, by decide,
    (c3_large_computation_guard (γ := ℚ) [⟨27002, fun _ _ => 0⟩] 1
        (Sum.inr znccMetric) 50 2).2.1 "n" (by decide) (by decide)⟩

/-- C10: when the guard triggers and the confirmation answer is anything
other than "y", StaticDictionaryIndexing.__call__ returns the value None —
not an exception, not a partial result, not an empty list — and no
matching is performed. -/
theorem c10_refusal_returns_none {γ : Type} [LinearOrder γ]
    (dicts : List (DictionaryM γ)) (navSize : ℕ)
    (metric : String ⊕ SimilarityMetric) (keep_n nSlices : ℕ) (answer : String)
    (hguard : needsConfirmation (maxNavSize dicts) nSlices = true)
    (hans : answer ≠ "y") :
    staticDictionaryCall dicts navSize metric keep_n nSlices answer = none := by
  unfold staticDictionaryCall
  rw [if_pos ⟨hguard, hans⟩]

/-- Witness for C10: a 30000-simulation dictionary with a single slice and
the answer "no" yields none. -/
theorem c10_refusal_returns_none_witness :
    needsConfirmation (maxNavSize (γ := ℚ) [⟨30000, fun _ _ => 0⟩]) 1 = true
      ∧ ("no" : String) ≠ "y"
      ∧ staticDictionaryCall (γ := ℚ) [⟨30000, fun _ _ => 0⟩] 4
          (Sum.inl "zncc") 50 1 "no" = none :=
  ⟨by decide, by decide,
    c10_refusal_returns_none (γ := ℚ) [⟨30000, fun _ _ => 0⟩] 4
      (Sum.inl "zncc") 50 1 "no" (by decide) (by decide)⟩

/-- C4: keep_n resolution and clamping.  When the guard does not trigger,
the indexing call succeeds for every metric instance; the number of kept
matches used is the single value min(requested keep_n, all dictionary
sizes) — it is at most keep_n, at most every dictionary's size, and equals
keep_n or one of the sizes — and every navigation position of every
dictionary's result map holds exactly that many ranked results, so a
keep_n larger than the dictionary sizes is clamped without error. -/
theorem c4_keepn_resolution {γ : Type} [LinearOrder γ]
    (dicts : List (DictionaryM γ)) (navSize : ℕ) (m : SimilarityMetric)
    (keep_n nSlices : ℕ) (answer : String)
    (hguard : needsConfirmation (maxNavSize dicts) nSlices = false) :
    ∃ maps,
      staticDictionaryCall dicts navSize (Sum.inr m) keep_n nSlices answer
          = some (.ok maps)
        ∧ maps.length = dicts.length
        ∧ (∀ mp ∈ maps, ∀ row ∈ mp, row.length = resolvedKeepN keep_n dicts)
        ∧ resolvedKeepN keep_n dicts ≤ keep_n
        ∧ (∀ d ∈ dicts, resolvedKeepN keep_n dicts ≤ d.size)
        ∧ resolvedKeepN keep_n dicts ∈ keep_n :: dicts.map DictionaryM.size := by
  refine ⟨dicts.map fun d =>
    (List.range navSize).map fun r =>
      patternMatchRow m.greater_is_better (resolvedKeepN keep_n dicts)
        nSlices (d.rowScores r) d.size, ?_, ?_, ?_, ?_, ?_, ?_⟩
  · unfold staticDictionaryCall
    rw [if_neg (fun hc => by rw [hguard] at hc; cases hc.1)]
    rfl
  · exact List.length_map _ _
  · intro mp hmp row hrow
    rcases List.mem_map.mp hmp with ⟨d, hd, hmp'⟩
    rw [← hmp'] at hrow
    rcases List.mem_map.mp hrow with ⟨r, _, hrow'⟩
    rw [← hrow', patternMatchRow_length]
    exact Nat.min_eq_left (resolvedKeepN_le_size keep_n dicts d hd)
  · exact resolvedKeepN_le_keepn keep_n dicts
  · exact resolvedKeepN_le_size keep_n dicts
  · exact resolvedKeepN_mem keep_n dicts

/-- Witness for C4: a single 3-template dictionary with requested keep_n
of 50 yields exactly 3 ranked results per navigation position. -/
theorem c4_keepn_resolution_witness :
    needsConfirmation (maxNavSize (γ := ℚ) [⟨3, fun r j => r + j⟩]) 1 = false
      ∧ (∃ maps,
          staticDictionaryCall (γ := ℚ) [⟨3, fun r j => r + j⟩] 2
              (Sum.inr znccMetric) 50 1 "irrelevant"
            = some (.ok maps)
          ∧ maps.length = 1
          ∧ (∀ mp ∈ maps, ∀ row ∈ mp,
              row.length = resolvedKeepN (γ := ℚ) 50 [⟨3, fun r j => r + j⟩])
          ∧ resolvedKeepN (γ := ℚ) 50 [⟨3, fun r j => r + j⟩] ≤ 50
          ∧ (∀ d ∈ [(⟨3, fun r j => r + j⟩ : DictionaryM ℚ)],
              resolvedKeepN (γ := ℚ) 50 [⟨3, fun r j => r + j⟩] ≤ d.size)
          ∧ resolvedKeepN (γ := ℚ) 50 [⟨3, fun r j => r + j⟩]
              ∈ 50 :: ([(⟨3, fun r j => r + j⟩ : DictionaryM ℚ)].map DictionaryM.size)) :=
  ⟨by decide,
    c4_keepn_resolution (γ := ℚ) [⟨3, fun r j => r + j⟩] 2 znccMetric 50 1
      "irrelevant" (by decide)⟩

theorem ndimScope_some_iff (pn tn : ℕ) (s : MetricScope) :
    ndimScope pn tn = some s ↔ (pn, tn) = scopeNdim s := by
  unfold ndimScope scopeNdim
  split_ifs with h1 h2 h3 <;> cases s <;>
    simp_all [Prod.ext_iff]

theorem scopeNdim_inj {s t : MetricScope} (h : scopeNdim s = scopeNdim t) :
    s = t := by
  cases s <;> cases t <;> simp_all [scopeNdim]

theorem contains_lowerScopes (sc s : MetricScope) :
    (lowerScopes sc).contains s = true ↔ s ∈ lowerScopes sc := by
  cases sc <;> cases s <;> decide

/-- C5 counterexample: is_compatible of a scope-reducible MANY_TO_MANY
metric returns true at the dimensionality pair (4, 3) — two extra pattern
axes — although the claim's table (one extra axis on each side, i.e.
(3, 3), plus the strictly lower pairs (2, 3) and (2, 2)) does not contain
(4, 3); moreover is_compatible returns false at the claim's declared pair
(3, 3). -/
theorem c5_counterexample :
    isCompatible znccMetric 4 3 = true
      ∧ isCompatible znccMetric 3 3 = false
      ∧ ((4, 3) : ℕ × ℕ) ≠ (3, 3)
      ∧ ((4, 3) : ℕ × ℕ) ≠ (2, 3)
      ∧ ((4, 3) : ℕ × ℕ) ≠ (2, 2) := by
  refine ⟨rfl, rfl, ?_, ?_, ?_⟩ <;> simp

/-- C5 (amended): scope compatibility table with the MANY_TO_MANY row
corrected to two extra pattern axes.  For every metric and every
dimensionality pair, is_compatible returns true exactly when the pair is
the metric's scope's declared pair — ONE_TO_ONE (2, 2), ONE_TO_MANY
(2, 3), MANY_TO_MANY (4, 3) — or, for a scope-reducible metric, a strictly
lower scope's declared pair; every other pair gives false rather than
raising. -/
theorem c5_amended_scope_table (m : SimilarityMetric) (pn tn : ℕ) :
    isCompatible m pn tn = true
      ↔ ((pn, tn) = scopeNdim m.scope
          ∨ (m.reducible = true
              ∧ ∃ s ∈ lowerScopes m.scope, (pn, tn) = scopeNdim s)) := by
  unfold isCompatible
  rcases hnd : ndimScope pn tn with _ | s
  · constructor
    · intro h; cases h
    · rintro (hEq | ⟨hred, s, hs, hEq⟩)
      · have := (ndimScope_some_iff pn tn m.scope).mpr hEq
        rw [hnd] at this
        cases this
      · have := (ndimScope_some_iff pn tn s).mpr hEq
        rw [hnd] at this
        cases this
  · have hps : (pn, tn) = scopeNdim s := (ndimScope_some_iff pn tn s).mp hnd
    simp only [Bool.or_eq_true, beq_iff_eq, Bool.and_eq_true]
    constructor
    · rintro (hEq | ⟨hred, hmem⟩)
      · left; rw [hps, hEq]
      · right
        exact ⟨hred, s, (contains_lowerScopes m.scope s).mp hmem, hps⟩
    · rintro (hEq | ⟨hred, t, ht, hEq⟩)
      · left
        exact scopeNdim_inj (by rw [← hps, hEq])
      · right
        have hts : t = s := scopeNdim_inj (by rw [← hps, hEq])
        refine ⟨hred, ?_⟩
        rw [hts] at ht
        exact (contains_lowerScopes m.scope s).mpr ht

/-- C6: the default metric of StaticDictionaryIndexing.__call__ is the
string "ncc", which is not a key of the registry whose keys are exactly
"zncc" and "ndp"; the registry lookup .get(metric, metric) therefore
leaves the default unresolved, and an indexing call made with the default
metric reaches the pattern matcher's unknown-metric ValueError instead of
using the built-in normalized cross-correlation metric. -/
theorem c6_default_metric_unregistered :
    indexerDefaultMetric = Sum.inl "ncc"
      ∧ SIMILARITY_METRICS.map Prod.fst = ["zncc", "ndp"]
      ∧ indexerResolveMetric indexerDefaultMetric = Sum.inl "ncc"
      ∧ resolveMetric indexerDefaultMetric
          = .error (.unknownMetric ["zncc", "ndp"])
      ∧ staticDictionaryCall (γ := ℚ) [⟨1, fun _ _ => 0⟩] 1
            indexerDefaultMetric 50 1 "y"
          = some (.error (.unknownMetric ["zncc", "ndp"])) :=
  ⟨rfl, rfl, rfl, rfl, rfl⟩

/-- Regular-grid x coordinates the claim describes for a 2-D navigation
grid of nrows rows and ncols columns in navigation (row-major) order: at
flattened index i, x = x0 + (i mod ncols) * dx.  Stated from the claim's
words for comparison with the source's construction. -/
def claimGridX (x0 dx : ℚ) (nrows ncols : ℕ) : List ℚ :=
  (List.range (nrows * ncols)).map fun i => x0 + ((i % ncols : ℕ) : ℚ) * dx

/-- Regular-grid y coordinates the claim describes: at flattened index i,
y = y0 + (i div ncols) * dy, constant along each row.  Stated from the
claim's words for comparison with the source's construction. -/
def claimGridY (y0 dy : ℚ) (nrows ncols : ℕ) : List ℚ :=
  (List.range (nrows * ncols)).map fun i => y0 + ((i / ncols : ℕ) : ℚ) * dy

/-- C7: on the 2×2 navigation grid with extents (0, 1, 0, 10) and step
sizes dx = 1, dy = 10, the source's _get_spatial_arrays returns
x = [0, 1, 0, 1] and y = [0, 10, 0, 10]: the x array is the claimed
regular grid, but the y array is a tile of the column of y values — y
varies fastest — instead of the claimed repeat [0, 0, 10, 10] in which y
is constant along a row; already at flattened index 1 the source gives
y = 10 where the regular grid has y = 0. -/
theorem c7_spatial_arrays_y_bug :
    getSpatialArrays [2, 2] [0, 1, 0, 10] [1, 10]
        = .twoD [0, 1, 0, 1] [0, 10, 0, 10]
      ∧ claimGridX 0 1 2 2 = [0, 1, 0, 1]
      ∧ claimGridY 0 10 2 2 = [0, 0, 10, 10]
      ∧ ([0, 10, 0, 10] : List ℚ) ≠ claimGridY 0 10 2 2
      ∧ ([0, 10, 0, 10] : List ℚ).getD 1 0 = 10
      ∧ (claimGridY 0 10 2 2).getD 1 0 = 0 := by
  have harx : arangeQ 0 (1 + 1) 1 = [0, 1] := by
    have hc : ((1 + 1 - 0 : ℚ)) / 1 = ((2 : ℕ) : ℚ) := by norm_num
    unfold arangeQ
    rw [hc, Int.ceil_natCast]
    rw [show Int.toNat ((2 : ℕ) : ℤ) = 2 from rfl]
    rw [show List.range 2 = [0, 1] from rfl]
    norm_num
  have hary : arangeQ 0 (10 + 10) 10 = [0, 10] := by
    have hc : ((10 + 10 - 0 : ℚ)) / 10 = ((2 : ℕ) : ℚ) := by norm_num
    unfold arangeQ
    rw [hc, Int.ceil_natCast]
    rw [show Int.toNat ((2 : ℕ) : ℤ) = 2 from rfl]
    rw [show List.range 2 = [0, 1] from rfl]
    norm_num
  have htilex : tileQ [(0 : ℚ), 1] 2 = [0, 1, 0, 1] := by
    simp [tileQ, List.replicate]
  have htiley : tileQ [(0 : ℚ), 10] 2 = [0, 10, 0, 10] := by
    simp [tileQ, List.replicate]
  have hcgx : claimGridX 0 1 2 2 = [0, 1, 0, 1] := by
    unfold claimGridX
    rw [show List.range (2 * 2) = [0, 1, 2, 3] from rfl]
    norm_num
  have hcgy : claimGridY 0 10 2 2 = [0, 0, 10, 10] := by
    unfold claimGridY
    rw [show List.range (2 * 2) = [0, 1, 2, 3] from rfl]
    norm_num
  refine ⟨?_, hcgx, hcgy, ?_, rfl, ?_⟩
  · rw [show getSpatialArrays [2, 2] [0, 1, 0, 10] [1, 10]
        = .twoD (tileQ (arangeQ 0 (1 + 1) 1) 2) (tileQ (arangeQ 0 (10 + 10) 10) 2)
        from rfl]
    rw [harx, hary, htilex, htiley]
  · rw [hcgy]
    simp only [ne_eq, List.cons.injEq, and_imp]
    norm_num
  · rw [hcgy]
    rfl

/-- C8: shape validation fails fast.  For every call of the pattern
matcher with a metric instance, if the image signal shape differs from the
template signal shape, or the combined dimensionality fails the metric's
compatibility check, the call returns the shape error — and it does so for
every score table identically, so no score computation can have taken
place and no match result is produced. -/
theorem c8_shape_validation {γ : Type} [LinearOrder γ] (pshape tshape : List ℕ)
    (scores : ℕ → ℕ → γ) (m : SimilarityMetric) (keep_n nSlices : ℕ)
    (h : lastTwo pshape ≠ lastTwo tshape
        ∨ isCompatible m pshape.length tshape.length = false) :
    pattern_match pshape tshape scores (Sum.inr m) keep_n nSlices
        = .error .shapeError
      ∧ ∀ scores2 : ℕ → ℕ → γ,
          pattern_match pshape tshape scores (Sum.inr m) keep_n nSlices
            = pattern_match pshape tshape scores2 (Sum.inr m) keep_n nSlices := by
  have hmain : ∀ sc : ℕ → ℕ → γ,
      pattern_match pshape tshape sc (Sum.inr m) keep_n nSlices
        = .error .shapeError := by
    intro sc
    simp only [pattern_match, resolveMetric]
    by_cases hsig : lastTwo pshape ≠ lastTwo tshape
    · rw [if_pos hsig]
    · rcases h with h | h
      · exact absurd h hsig
      · rw [if_neg hsig, if_neg (by rw [h]; exact Bool.false_ne_true)]
  exact ⟨hmain scores, fun s2 => (hmain scores).trans (hmain s2).symm⟩

/-- Witness for C8 at the mismatching-shapes test input: a 2×2 image
against a 3×3 template with a MANY_TO_MANY metric instance yields the
shape error. -/
theorem c8_shape_validation_witness :
    (lastTwo [2, 2] ≠ lastTwo [3, 3]
        ∨ isCompatible ⟨.manyToMany, true, false, false⟩
            ([2, 2] : List ℕ).length ([3, 3] : List ℕ).length = false)
      ∧ pattern_match [2, 2] [3, 3] (fun _ _ => (0 : ℚ))
          (Sum.inr ⟨.manyToMany, true, false, false⟩) 50 1 = .error .shapeError :=
  ⟨Or.inl (by decide),
    (c8_shape_validation [2, 2] [3, 3] (fun _ _ => (0 : ℚ))
      ⟨.manyToMany, true, false, false⟩ 50 1 (Or.inl (by decide))).1⟩

/-- C9: an unrecognized metric name makes the pattern matcher fail fast
with the ValueError that lists the recognized metric names "zncc" and
"ndp"; the result is this error for every shape, score table, keep_n and
slicing, so it precedes any computation. -/
theorem c9_unknown_metric_name {γ : Type} [LinearOrder γ]
    (pshape tshape : List ℕ) (scores : ℕ → ℕ → γ) (name : String)
    (keep_n nSlices : ℕ) (h : name ∉ SIMILARITY_METRICS.map Prod.fst) :
    pattern_match pshape tshape scores (Sum.inl name) keep_n nSlices
      = .error (.unknownMetric ["zncc", "ndp"]) := by
  have hname : name ≠ "zncc" ∧ name ≠ "ndp" := by
    constructor <;> intro he <;> rw [he] at h <;>
      exact h (by rw [show SIMILARITY_METRICS.map Prod.fst = ["zncc", "ndp"] from rfl]; simp)
  have hfind : SIMILARITY_METRICS.find? (fun p => p.1 == name) = none := by
    rw [List.find?_eq_none]
    intro p hp
    rcases List.mem_cons.mp hp with he | hp2
    · rw [he]
      intro he2
      exact hname.1 (eq_of_beq he2).symm
    · rcases List.mem_cons.mp hp2 with he | hp3
      · rw [he]
        intro he2
        exact hname.2 (eq_of_beq he2).symm
      · cases hp3
  simp only [pattern_match, resolveMetric]
  rw [hfind]
  rfl

/-- Witness for C9 at the test's input name "not_recognized". -/
theorem c9_unknown_metric_name_witness :
    ("not_recognized" ∉ SIMILARITY_METRICS.map Prod.fst)
      ∧ pattern_match [2, 2] [2, 2] (fun _ _ => (0 : ℚ))
          (Sum.inl "not_recognized") 50 1
        = .error (.unknownMetric ["zncc", "ndp"]) :=
  ⟨by decide,
    c9_unknown_metric_name [2, 2] [2, 2] (fun _ _ => (0 : ℚ))
      "not_recognized" 50 1 (by decide)⟩

/-- Flattened experimental patterns of concrete scenario A in navigation
row-major order — p[0,0], p[0,1], p[1,0], p[1,1] of the pattern-matching
test — so navigation-flattened index 2 is the image [[9, 8], [1, 7]]. -/
def scenarioPatterns : List (List ℚ) :=
  [[1, 2, 3, 4], [5, 6, 7, 8], [9, 8, 1, 7], [5, 2, 2, 7]]

/-- Flattened templates of concrete scenario A; template 1 equals the
pattern at navigation-flattened index 2. -/
def scenarioTemplates : List (List ℚ) :=
  [[5, 3, 2, 7], [9, 8, 1, 7], [10, 2, 5, 3], [8, 4, 6, 12], [43, 0, 5, 3]]

/-- zncc score table of scenario A: score of flattened pattern r against
template j. -/
noncomputable def scenarioScores (r j : ℕ) : ℝ :=
  znccScore (scenarioPatterns.getD r []) (scenarioTemplates.getD j [])

/-- C2: concrete scenario A.  With the zncc metric and default settings
(keep_n 50, n_slices 1), the self-match of the pattern at
navigation-flattened index 2 with template 1 scores exactly 1 under exact
arithmetic (the spec's score ≈ 1.0), and the match result places template
index 1 with that score at rank 0 for navigation-flattened index 2. -/
theorem c2_scenario_a :
    znccScore [9, 8, 1, 7] [9, 8, 1, 7] = 1
      ∧ ((pattern_match [2, 2, 2, 2] [5, 2, 2] scenarioScores
            (Sum.inl "zncc") 50 1).toOption.bind (fun rows => rows[2]?)).bind
          List.head?
        = some ((1 : ℝ), 1) := by
  have hself : znccScore [9, 8, 1, 7] [9, 8, 1, 7] = 1 :=
    znccScore_self _ (by norm_num [innerQ, centered, meanQ])
  have hlt0 : znccScore [9, 8, 1, 7] [5, 3, 2, 7] < 1 :=
    znccScore_lt_one _ _ (by norm_num [innerQ, centered, meanQ])
      (by norm_num [innerQ, centered, meanQ]) (by norm_num [innerQ, centered, meanQ])
  have hlt2 : znccScore [9, 8, 1, 7] [10, 2, 5, 3] < 1 :=
    znccScore_lt_one _ _ (by norm_num [innerQ, centered, meanQ])
      (by norm_num [innerQ, centered, meanQ]) (by norm_num [innerQ, centered, meanQ])
  have hlt3 : znccScore [9, 8, 1, 7] [8, 4, 6, 12] < 1 :=
    znccScore_lt_one _ _ (by norm_num [innerQ, centered, meanQ])
      (by norm_num [innerQ, centered, meanQ]) (by norm_num [innerQ, centered, meanQ])
  have hlt4 : znccScore [9, 8, 1, 7] [43, 0, 5, 3] < 1 :=
    znccScore_lt_one _ _ (by norm_num [innerQ, centered, meanQ])
      (by norm_num [innerQ, centered, meanQ]) (by norm_num [innerQ, centered, meanQ])
  have hs1 : scenarioScores 2 1 = 1 := hself
  have hs0 : scenarioScores 2 0 = znccScore [9, 8, 1, 7] [5, 3, 2, 7] := rfl
  have hs2 : scenarioScores 2 2 = znccScore [9, 8, 1, 7] [10, 2, 5, 3] := rfl
  have hs3 : scenarioScores 2 3 = znccScore [9, 8, 1, 7] [8, 4, 6, 12] := rfl
  have hs4 : scenarioScores 2 4 = znccScore [9, 8, 1, 7] [43, 0, 5, 3] := rfl
  have hdom : ∀ y ∈ allEntries (scenarioScores 2) 5,
      y ≠ (scenarioScores 2 1, 1) →
      entryLe true (scenarioScores 2 1, 1) y
        ∧ ¬ entryLe true y (scenarioScores 2 1, 1) := by
    intro y hy hne
    unfold allEntries at hy
    rw [show List.range 5 = [0, 1, 2, 3, 4] from rfl] at hy
    simp only [List.map_cons, List.map_nil, List.mem_cons, List.not_mem_nil,
      or_false] at hy
    have hbuild : ∀ sj : ℝ, sj < 1 → ∀ j : ℕ,
        entryLe true ((scenarioScores 2 1, 1) : Entry ℝ) (sj, j)
          ∧ ¬ entryLe true ((sj, j) : Entry ℝ) (scenarioScores 2 1, 1) := by
      intro sj hsj j
      constructor
      · exact Or.inl (by rw [hs1]; exact hsj)
      · rintro (hlt | ⟨heq, _⟩)
        · rw [hs1] at hlt
          exact absurd (lt_trans hsj hlt) (lt_irrefl _)
        · rw [hs1] at heq
          simp only at heq
          exact absurd heq (ne_of_lt hsj)
    rcases hy with he | he | he | he | he
    · rw [he, hs0]; exact hbuild _ (hs0 ▸ hlt0) 0
    · exact absurd he hne
    · rw [he, hs2]; exact hbuild _ (hs2 ▸ hlt2) 2
    · rw [he, hs3]; exact hbuild _ (hs3 ▸ hlt3) 3
    · rw [he, hs4]; exact hbuild _ (hs4 ▸ hlt4) 4
  have hmem : ((scenarioScores 2 1, 1) : Entry ℝ) ∈ allEntries (scenarioScores 2) 5 := by
    unfold allEntries
    rw [show List.range 5 = [0, 1, 2, 3, 4] from rfl]
    simp
  have hhead : (patternMatchRow true 5 1 (scenarioScores 2) 5).head?
      = some (scenarioScores 2 1, 1) := by
    rw [patternMatchRow_eq_topN, head?_topN true (by omega)]
    exact head?_insertionSort_dominant true _ _ hmem hdom
  refine ⟨hself, ?_⟩
  rw [show pattern_match [2, 2, 2, 2] [5, 2, 2] scenarioScores (Sum.inl "zncc") 50 1
      = .ok ((List.range 4).map fun r => patternMatchRow true 5 1 (scenarioScores r) 5)
      from rfl]
  simp only [Except.toOption, Option.some_bind]
  rw [show ((List.range 4).map fun r =>
        patternMatchRow true 5 1 (scenarioScores r) 5)[2]?
      = some (patternMatchRow true 5 1 (scenarioScores 2) 5) from rfl]
  simp only [Option.some_bind]
  rw [hhead, hs1]

end KP
